import Mathlib

/-!
# Acagamics Arcade Launcher: the control core of `main.go`

A shallow embedding of the tick logic of `main.go` (`App.Update`,
`App.navigation`, `App.animations`, `App.openAndClosing`, `App.wait` and the
`App` value built by `main`), followed by theorems about it.

Conventions of the embedding.

* Go `int` is a 64-bit two's-complement integer: `selectedIndex++` and
  `selectedIndex--` wrap (`wrapInt64`), and `%` is the truncated remainder
  (`Int.tmod`), which panics on a zero divisor.
* `float64` values are idealised: the gamepad axis sample and the animation
  weights are rationals; `timeout` only ever holds the zero value, the constant
  `navigationTimeout` and their decrements by one, all of them integers that a
  `float64` represents exactly, so it is an `Int`.
* The gamepad state, the result of `Cmd.Start`, of `Cmd.Wait` and of
  `Process.Kill` come from outside the program; they are parameters.
* `Process.Kill` called through a nil `Process` (a `Cmd` that never started)
  dereferences the nil pointer and panics.
* Within one tick the reads of `currentChild` (lines 79, 106, 115) see the same
  value; a write by the goroutine that runs `wait` falls between two ticks.
* Calls that act on the outside world are recorded as a list of `Effect`s in
  program order.
* A run-time panic is the `Except.error` result.
-/

namespace Launcher

/-! ## Constants -/

def killHoldDuration : Int := 60

def navigationTimeout : Int := 20

def deadZone : ℚ := 1 / 2

/-! ## Data model -/

/-- Run-time panics the tick logic can raise. -/
inductive Panic where
  | divideByZero
  | indexOutOfRange
  | nilDereference
  deriving DecidableEq, Repr

/-- The fields of `Game` the tick logic reads or writes (`ReleaseDate` and
`Thumbnail` are only used by loading and drawing). -/
structure Game where
  Name : String
  Author : String
  ExecutablePath : String
  animation : ℚ
  deriving DecidableEq, Repr

/-- An `exec.Cmd`: the path given to `exec.Command`, and `Process`, which is
nil until `Start` succeeds and then holds the process (its pid). -/
structure Cmd where
  Path : String
  Process : Option Nat
  deriving DecidableEq, Repr

structure App where
  games : List Game
  selectedIndex : Int
  currentChild : Option Cmd
  slide : ℚ
  timeout : Int
  deriving DecidableEq, Repr

/-- What the gamepad and the operating system report during one tick:
`GamepadAxis(0, 0)`, `IsGamepadButtonJustPressed(0, GamepadButton0)`,
`GamepadButtonPressDuration` of `GamepadButton7` and of `GamepadButton6`, and
the error (if any) that `Process.Kill` returns when it is called on a started
process. Both reads of the axis within one tick see the same sample. -/
structure Input where
  axis : ℚ
  confirmJustPressed : Bool
  pressDuration7 : Int
  pressDuration6 : Int
  killErr : Option String
  deriving DecidableEq, Repr

/-- Calls on the outside world, in the order the program makes them. -/
inductive Effect where
  | goWait (s : Game)
  | kill (c : Cmd)
  | log (e : String)
  | start (c : Cmd)
  | awaitExit (c : Cmd)
  | println (s : String)
  | restoreWindow
  deriving DecidableEq, Repr

/-! ## Go integer arithmetic -/

/-- Two's-complement wrap of a mathematical integer into `int64`. -/
def wrapInt64 (x : Int) : Int := (x + 2 ^ 63) % 2 ^ 64 - 2 ^ 63

/-- Go's `a % b` on `int`: truncated remainder, panic when `b = 0`. -/
def goRem (a b : Int) : Except Panic Int :=
  if b = 0 then .error .divideByZero else .ok (Int.tmod a b)

/-- Go's `games[i]`: panic unless `0 <= i < len(games)`. -/
def index (games : List Game) (i : Int) : Except Panic Game :=
  if i < 0 then .error .indexOutOfRange
  else match games.get? i.toNat with
    | some s => .ok s
    | none => .error .indexOutOfRange

/-! ## The tick logic -/

/-- Method `App.navigation` (lines 87-103), with the axis sample of this tick. -/
def navigation (g : App) (axis : ℚ) : Except Panic App := do
  let g1 :=
    if g.timeout < 0 then
      let g2 :=
        if axis > deadZone then
          { g with selectedIndex := wrapInt64 (g.selectedIndex + 1),
                   timeout := navigationTimeout }
        else g
      if axis < -deadZone then
        { g2 with selectedIndex := wrapInt64 (g2.selectedIndex - 1),
                  timeout := navigationTimeout }
      else g2
    else g
  let r ← goRem g1.selectedIndex g1.games.length
  let g3 := { g1 with selectedIndex := r }
  let g4 :=
    if g3.selectedIndex < 0 then
      { g3 with selectedIndex := (g3.games.length : Int) - 1 }
    else g3
  pure { g4 with timeout := g4.timeout - 1 }

def lerp (a b t : ℚ) : ℚ := (b - a) * t + a

/-- Method `App.animations` (lines 124-132); `.2` is taken as the rational 1/5. -/
def animations (g : App) : App :=
  { g with games := g.games.enum.map fun p =>
      if (p.1 : Int) = g.selectedIndex then
        { p.2 with animation := lerp p.2.animation 1 (1 / 5) }
      else
        { p.2 with animation := lerp p.2.animation 0 (1 / 5) } }

/-- Method `App.openAndClosing` (lines 105-122). It writes no field of `App`; its
result is the list of calls it makes. On line 115 `g.currentChild.Process` is
nil when the installed command never started, and `Kill` then panics before any
signal is sent. -/
def openAndClosing (g : App) (inp : Input) : Except Panic (List Effect) :=
  match g.currentChild with
  | none =>
    if inp.confirmJustPressed then do
      let r ← goRem g.selectedIndex g.games.length
      let s ← index g.games r
      pure [Effect.goWait s]
    else pure []
  | some c =>
    let a := decide (inp.pressDuration7 > killHoldDuration)
    let b := decide (inp.pressDuration6 > killHoldDuration)
    if a && b then
      match c.Process with
      | none => .error .nilDereference
      | some _ =>
        match inp.killErr with
        | some e => pure [Effect.kill c, Effect.log e]
        | none => pure [Effect.kill c]
    else pure []

/-- Method `App.Update` (lines 78-85); it always returns a nil error, so the
result only distinguishes a normal return from a panic. -/
def Update (g : App) (inp : Input) : Except Panic (App × List Effect) := do
  let g1 ←
    if g.currentChild = none then do
      let g2 ← navigation g inp.axis
      pure (animations g2)
    else pure g
  let effs ← openAndClosing g1 inp
  pure (g1, effs)

/-- Method `App.wait` (lines 138-154), run to its return. `startRes` is what
`Start` does (an error, or the pid of the new process) and `waitErr` what the
blocking `Wait` returns. -/
def wait (g : App) (game : Game) (startRes : Except String Nat)
    (waitErr : Option String) : App × List Effect :=
  let c : Cmd := { Path := game.ExecutablePath, Process := none }
  let g1 := { g with currentChild := some c }
  match startRes with
  | .error e => (g1, [Effect.start c, Effect.log e])
  | .ok pid =>
    let c1 : Cmd := { c with Process := some pid }
    let g2 := { g1 with currentChild := some c1 }
    match waitErr with
    | some e =>
      (g2, [Effect.start c, Effect.println "started", Effect.awaitExit c1,
            Effect.log e])
    | none =>
      ({ g2 with currentChild := none },
       [Effect.start c, Effect.println "started", Effect.awaitExit c1,
        Effect.println "exited", Effect.restoreWindow])

/-- The value `&App{games: games}` that `main` (line 208) hands to
`ebiten.RunGame`: every other field has its zero value. -/
def mainApp (games : List Game) : App :=
  { games := games, selectedIndex := 0, currentChild := none, slide := 0,
    timeout := 0 }

/-! ## Runs of the tick loop and of `navigation` -/

/-- A run of the foreground loop: one `Update` per entry of the list. Between
two ticks the goroutine that runs `wait` may have written `currentChild`; each
entry gives the value the tick finds in that field, and the input of the
tick. -/
def ticks : App → List (Option Cmd × Input) → Except Panic App
  | g, [] => .ok g
  | g, (child, inp) :: rest =>
    match Update { g with currentChild := child } inp with
    | .error p => .error p
    | .ok (g1, _) => ticks g1 rest

/-- The guard of the `selectedIndex++` branch of `navigation`. -/
def firesNext (g : App) (axis : ℚ) : Bool :=
  decide (g.timeout < 0) && decide (axis > deadZone)

/-- The guard of the `selectedIndex--` branch of `navigation`. -/
def firesPrevious (g : App) (axis : ℚ) : Bool :=
  decide (g.timeout < 0) && decide (axis < -deadZone)

/-- A navigation step fires: one of the two branches is taken. -/
def stepFires (g : App) (axis : ℚ) : Bool :=
  firesNext g axis || firesPrevious g axis

/-- Run `navigation` once per axis sample; the result is, tick by tick, whether
`fire` held of the state and sample the tick started with, and the final
state. -/
def navTrace (fire : App → ℚ → Bool) :
    App → List ℚ → Except Panic (List Bool × App)
  | g, [] => .ok ([], g)
  | g, a :: as =>
    match navigation g a with
    | .error p => .error p
    | .ok g1 =>
      match navTrace fire g1 as with
      | .error p => .error p
      | .ok (t, gf) => .ok (fire g a :: t, gf)

/-! ## Closed forms used by the lemmas -/

/-- The value of `selectedIndex` after the `if g.timeout < 0` block. -/
def steppedIndex (g : App) (axis : ℚ) : Int :=
  let i1 := if firesNext g axis then wrapInt64 (g.selectedIndex + 1) else g.selectedIndex
  if firesPrevious g axis then wrapInt64 (i1 - 1) else i1

/-- The wraparound of lines 98-101 applied to `i` for a catalog of size `n`. -/
def wrapIndex (i : Int) (n : Nat) : Int :=
  if Int.tmod i n < 0 then (n : Int) - 1 else Int.tmod i n

/-- Closed form of the state `navigation` returns on a non-empty catalog
(`navigation_eq` below). -/
def navigated (g : App) (axis : ℚ) : App :=
  { g with selectedIndex := wrapIndex (steppedIndex g axis) g.games.length,
           timeout := if stepFires g axis then navigationTimeout - 1 else g.timeout - 1 }

/-! ## Test values -/

def game1 : Game := { Name := "a", Author := "x", ExecutablePath := "/a", animation := 1 }
def game2 : Game := { Name := "b", Author := "y", ExecutablePath := "/b", animation := 1 }
def game3 : Game := { Name := "c", Author := "z", ExecutablePath := "/c", animation := 1 }

def app3 (i t : Int) : App :=
  { games := [game1, game2, game3], selectedIndex := i, currentChild := none,
    slide := 0, timeout := t }

/-- A catalog of one game, index 0, timer at `t`. -/
def app1 (t : Int) : App :=
  { games := [game1], selectedIndex := 0, currentChild := none, slide := 0, timeout := t }

/-- The three-game catalog with a started child (pid 7) installed. -/
def runningApp : App :=
  { games := [game1, game2, game3], selectedIndex := 1,
    currentChild := some { Path := "/a", Process := some 7 }, slide := 0, timeout := -3 }

/-- The three-game catalog in the state a failed `Start` leaves: the handle of
a command that never started is installed. -/
def stuckApp : App :=
  { games := [game1, game2, game3], selectedIndex := 1,
    currentChild := some { Path := "/a", Process := none }, slide := 0, timeout := -3 }

/-! ## Lemmas on `navigation` -/

theorem navigation_eq (g : App) (axis : ℚ) (h : 1 ≤ g.games.length) :
    navigation g axis = .ok (navigated g axis) := by
  have hN : ¬ ((g.games.length : Int) = 0) := by omega
  have hN2 : g.games ≠ [] := by
    intro h0; rw [h0] at h; simp at h
  unfold navigation navigated
  by_cases ht : g.timeout < 0 <;> by_cases h1 : axis > deadZone <;>
    by_cases h2 : axis < -deadZone <;>
    simp [goRem, steppedIndex, wrapIndex, stepFires, firesNext, firesPrevious, ht, h1, h2, hN, hN2,
      bind, Except.bind, pure, Except.pure] <;>
    split <;> simp_all

theorem wrapIndex_nonneg (i : Int) (n : Nat) (h : 1 ≤ n) : 0 ≤ wrapIndex i n := by
  unfold wrapIndex
  split <;> omega

theorem wrapIndex_lt (i : Int) (n : Nat) (h : 1 ≤ n) : wrapIndex i n < n := by
  unfold wrapIndex
  have := Int.tmod_lt_of_pos i (show (0 : Int) < n by omega)
  split <;> omega

theorem wrapIndex_of_nonneg (i : Int) (n : Nat) (h : 0 ≤ i) : wrapIndex i n = i % n := by
  unfold wrapIndex
  have h1 : Int.tmod i n = i % n := Int.tmod_eq_emod h (Int.ofNat_nonneg n)
  have h2 : 0 ≤ Int.tmod i n := Int.tmod_nonneg _ h
  rw [if_neg (by omega : ¬ Int.tmod i n < 0), h1]

theorem wrapIndex_neg_one (n : Nat) (h : 1 ≤ n) : wrapIndex (-1) n = (n : Int) - 1 := by
  unfold wrapIndex
  rcases Nat.eq_or_lt_of_le h with h1 | h1
  · subst h1; simp
  · have h2 : Int.tmod (-1) (n : Int) = -((1 % n : Nat) : Int) := rfl
    rw [h2, Nat.mod_eq_of_lt h1]; simp

theorem wrapInt64_of_range (x : Int) (h0 : -(2 ^ 63) ≤ x) (h1 : x < 2 ^ 63) : wrapInt64 x = x := by
  unfold wrapInt64
  omega

theorem not_both_sides (axis : ℚ) (h1 : axis > deadZone) (h2 : axis < -deadZone) : False := by
  unfold deadZone at h1 h2
  linarith

theorem navigated_index (g : App) (axis : ℚ)
    (hN : 1 ≤ g.games.length) (hlen : g.games.length < 2 ^ 63)
    (h0 : 0 ≤ g.selectedIndex) (h1 : g.selectedIndex < g.games.length) :
    (navigated g axis).selectedIndex =
      if g.timeout < 0 ∧ axis > deadZone then (g.selectedIndex + 1) % g.games.length
      else if g.timeout < 0 ∧ axis < -deadZone then
        (g.selectedIndex - 1 + g.games.length) % g.games.length
      else g.selectedIndex := by
  have hlen2 : (g.games.length : Int) < 2 ^ 63 := by exact_mod_cast hlen
  by_cases hn : g.timeout < 0 ∧ axis > deadZone
  · obtain ⟨ht, ha⟩ := hn
    have hb : ¬ axis < -deadZone := fun hb => not_both_sides axis ha hb
    simp only [navigated, steppedIndex, firesNext, firesPrevious, ht, ha, hb, decide_True,
      decide_False, Bool.and_true, Bool.and_false, if_true, if_false, Bool.false_eq_true,
      and_self]
    rw [wrapInt64_of_range _ (by omega) (by omega), wrapIndex_of_nonneg _ _ (by omega)]
  · rw [if_neg hn]
    by_cases hp : g.timeout < 0 ∧ axis < -deadZone
    · obtain ⟨ht, hb⟩ := hp
      have ha : ¬ axis > deadZone := fun ha => not_both_sides axis ha hb
      simp only [navigated, steppedIndex, firesNext, firesPrevious, ht, ha, hb, decide_True,
        decide_False, Bool.and_true, Bool.and_false, if_true, if_false, Bool.false_eq_true,
        and_self]
      rw [wrapInt64_of_range _ (by omega) (by omega)]
      rcases Int.lt_or_le 0 g.selectedIndex with hq | hq
      · rw [wrapIndex_of_nonneg _ _ (by omega), Int.add_emod_self]
      · have hz : g.selectedIndex = 0 := by omega
        rw [hz]
        simp only [Int.zero_sub]
        rw [wrapIndex_neg_one _ hN, Int.emod_eq_of_lt (by omega) (by omega)]
        omega
    · rw [if_neg hp]
      have hs : steppedIndex g axis = g.selectedIndex := by
        by_cases ht : g.timeout < 0
        · have ha : ¬ axis > deadZone := fun ha => hn ⟨ht, ha⟩
          have hb : ¬ axis < -deadZone := fun hb => hp ⟨ht, hb⟩
          simp [steppedIndex, firesNext, firesPrevious, ha, hb]
        · simp [steppedIndex, firesNext, firesPrevious, ht]
      simp only [navigated, hs]
      rw [wrapIndex_of_nonneg _ _ h0, Int.emod_eq_of_lt h0 h1]

/-! ## Lemmas on runs -/

theorem navTrace_cons_eq (fire : App → ℚ → Bool) (g : App) (a : ℚ) (as : List ℚ)
    (h : 1 ≤ g.games.length) :
    navTrace fire g (a :: as) =
      match navTrace fire (navigated g a) as with
      | .error p => .error p
      | .ok (t, gf) => .ok (fire g a :: t, gf) := by
  simp [navTrace, navigation_eq g a h]

theorem navigated_games (g : App) (a : ℚ) : (navigated g a).games = g.games := rfl

theorem navigated_timeout_ge (g : App) (a : ℚ) : g.timeout - 1 ≤ (navigated g a).timeout := by
  simp only [navigated, stepFires, firesNext, firesPrevious, navigationTimeout]
  split
  · rename_i hf
    have : g.timeout < 0 := by
      by_contra hc
      simp [hc] at hf
    omega
  · omega

theorem stepFires_armed (g : App) (a : ℚ) (h : stepFires g a = true) : g.timeout < 0 := by
  by_contra hc
  simp [stepFires, firesNext, firesPrevious, hc] at h

/-- A tick that fires within a run started in `g` is later than `g.timeout`. -/
theorem fire_after_timeout (samples : List ℚ) :
    ∀ (g : App) (tr : List Bool) (gf : App) (k : Nat), 1 ≤ g.games.length →
      navTrace stepFires g samples = .ok (tr, gf) → tr[k]? = some true →
      g.timeout < k := by
  induction samples with
  | nil =>
    intro g tr gf k _ he hk
    simp [navTrace] at he
    rw [he.1] at hk
    simp at hk
  | cons a as ih =>
    intro g tr gf k hN he hk
    rw [navTrace_cons_eq _ g a as hN] at he
    cases hrun : navTrace stepFires (navigated g a) as with
    | error p => rw [hrun] at he; cases he
    | ok r =>
      obtain ⟨t, gf1⟩ := r
      rw [hrun] at he
      simp only [Except.ok.injEq, Prod.mk.injEq] at he
      obtain ⟨htr, _⟩ := he
      subst htr
      cases k with
      | zero =>
        simp only [List.getElem?_cons_zero, Option.some.injEq] at hk
        have := stepFires_armed g a hk
        omega
      | succ k =>
        simp only [List.getElem?_cons_succ] at hk
        have h1 := ih (navigated g a) t gf1 k (by rw [navigated_games]; exact hN) hrun hk
        have h2 := navigated_timeout_ge g a
        omega

/-- Two ticks of one run that both fire are more than `navigationTimeout`
ticks apart. -/
theorem fires_apart (samples : List ℚ) :
    ∀ (g : App) (tr : List Bool) (gf : App) (i j : Nat), 1 ≤ g.games.length →
      navTrace stepFires g samples = .ok (tr, gf) → i < j →
      tr[i]? = some true → tr[j]? = some true → (i : Int) + navigationTimeout < j := by
  induction samples with
  | nil =>
    intro g tr gf i j _ he _ hi _
    simp [navTrace] at he
    rw [he.1] at hi
    simp at hi
  | cons a as ih =>
    intro g tr gf i j hN he hij hi hj
    rw [navTrace_cons_eq _ g a as hN] at he
    cases hrun : navTrace stepFires (navigated g a) as with
    | error p => rw [hrun] at he; cases he
    | ok r =>
      obtain ⟨t, gf1⟩ := r
      rw [hrun] at he
      simp only [Except.ok.injEq, Prod.mk.injEq] at he
      obtain ⟨htr, _⟩ := he
      subst htr
      have hN1 : 1 ≤ (navigated g a).games.length := by rw [navigated_games]; exact hN
      cases j with
      | zero => omega
      | succ j =>
        simp only [List.getElem?_cons_succ] at hj
        cases i with
        | zero =>
          simp only [List.getElem?_cons_zero, Option.some.injEq] at hi
          have h1 := fire_after_timeout as (navigated g a) t gf1 j hN1 hrun hj
          have h2 : (navigated g a).timeout = navigationTimeout - 1 := by
            simp [navigated, hi]
          simp only [navigationTimeout] at h2 ⊢
          omega
        | succ i =>
          simp only [List.getElem?_cons_succ] at hi
          have := ih (navigated g a) t gf1 i j hN1 hrun (by omega) hi hj
          omega

theorem navTrace_total (fire : App → ℚ → Bool) (samples : List ℚ) :
    ∀ (g : App), 1 ≤ g.games.length →
      ∃ tr gf, navTrace fire g samples = .ok (tr, gf) ∧ tr.length = samples.length ∧
        gf.games = g.games := by
  induction samples with
  | nil => intro g _; exact ⟨[], g, rfl, rfl, rfl⟩
  | cons a as ih =>
    intro g hN
    obtain ⟨t, gf, e, hl, hg⟩ := ih (navigated g a) (by rw [navigated_games]; exact hN)
    refine ⟨fire g a :: t, gf, ?_, by simp [hl], by rw [hg, navigated_games]⟩
    rw [navTrace_cons_eq _ g a as hN, e]

theorem navigated_timeout_sustained (g : App) (a : ℚ) (ha : a > deadZone) :
    (navigated g a).timeout = if g.timeout < 0 then navigationTimeout - 1 else g.timeout - 1 := by
  have hb : ¬ a < -deadZone := fun hb => not_both_sides a ha hb
  by_cases ht : g.timeout < 0 <;>
    simp [navigated, stepFires, firesNext, firesPrevious, ha, hb, ht]

/-- Under a sustained sample above the dead zone, a run whose first step is due
in `c` ticks fires exactly on the ticks `c`, `c + 21`, `c + 42`, ... -/
theorem sustained_trace (fire : App → ℚ → Bool)
    (hfire : ∀ (g : App) (a : ℚ), a > deadZone → fire g a = decide (g.timeout < 0))
    (samples : List ℚ) :
    ∀ (g : App) (c : Nat), 1 ≤ g.games.length → (∀ a ∈ samples, a > deadZone) → c ≤ 20 →
      ((c = 0 ∧ g.timeout < 0) ∨ (0 < c ∧ g.timeout = (c : Int) - 1)) →
      ∃ tr gf, navTrace fire g samples = .ok (tr, gf) ∧ tr.length = samples.length ∧
        (∀ k, k < samples.length → tr[k]? = some (decide ((k + 21 - c) % 21 = 0))) ∧
        tr.count true = (samples.length + 20 - c) / 21 := by
  induction samples with
  | nil =>
    intro g c _ _ hc _
    refine ⟨[], g, rfl, rfl, ?_, ?_⟩
    · intro k hk; simp at hk
    · simp only [List.count_nil, List.length_nil]; omega
  | cons a as ih =>
    intro g c hN hs hc hphase
    have ha : a > deadZone := hs a (by simp)
    have hs1 : ∀ b ∈ as, b > deadZone := fun b hb => hs b (by simp [hb])
    have hN1 : 1 ≤ (navigated g a).games.length := by rw [navigated_games]; exact hN
    have ht1 := navigated_timeout_sustained g a ha
    rcases hphase with ⟨hc0, ht⟩ | ⟨hcpos, ht⟩
    · -- the step is due now
      subst hc0
      have hf : fire g a = true := by rw [hfire g a ha]; simp [ht]
      rw [if_pos ht] at ht1
      obtain ⟨t, gf, e, hl, hidx, hcnt⟩ := ih (navigated g a) 20 hN1 hs1 (by omega)
        (Or.inr ⟨by omega, by rw [ht1]; simp [navigationTimeout]⟩)
      refine ⟨fire g a :: t, gf, by rw [navTrace_cons_eq _ g a as hN, e], by simp [hl], ?_, ?_⟩
      · intro k hk
        cases k with
        | zero => simp [hf]
        | succ k =>
          simp only [List.length_cons, Nat.add_lt_add_iff_right] at hk
          simp only [List.getElem?_cons_succ]
          rw [hidx k hk]
          congr 1
          rw [decide_eq_decide]
          omega
      · rw [hf, List.count_cons_self, hcnt]
        simp only [List.length_cons]
        omega
    · -- the step is due in c > 0 ticks
      have hf : fire g a = false := by
        rw [hfire g a ha]
        simp only [decide_eq_false_iff_not]
        omega
      rw [if_neg (by omega)] at ht1
      obtain ⟨t, gf, e, hl, hidx, hcnt⟩ := ih (navigated g a) (c - 1) hN1 hs1 (by omega)
        (by
          rcases Nat.eq_or_lt_of_le hcpos with h1 | h1
          · left; exact ⟨by omega, by omega⟩
          · right; exact ⟨by omega, by omega⟩)
      refine ⟨fire g a :: t, gf, by rw [navTrace_cons_eq _ g a as hN, e], by simp [hl], ?_, ?_⟩
      · intro k hk
        cases k with
        | zero =>
          simp only [List.getElem?_cons_zero, hf, Option.some.injEq]
          symm
          simp only [decide_eq_false_iff_not]
          omega
        | succ k =>
          simp only [List.length_cons, Nat.add_lt_add_iff_right] at hk
          simp only [List.getElem?_cons_succ]
          rw [hidx k hk]
          congr 1
          rw [decide_eq_decide]
          omega
      · rw [hf, List.count_cons_of_ne (by decide), hcnt]
        simp only [List.length_cons]
        omega

theorem firesNext_sustained (g : App) (a : ℚ) (ha : a > deadZone) :
    firesNext g a = decide (g.timeout < 0) := by
  simp [firesNext, ha]

theorem stepFires_sustained (g : App) (a : ℚ) (ha : a > deadZone) :
    stepFires g a = decide (g.timeout < 0) := by
  have hb : ¬ a < -deadZone := fun hb => not_both_sides a ha hb
  simp [stepFires, firesNext, firesPrevious, ha, hb]

/-- Under a sustained sample above the dead zone, the index a run ends with is
the starting index advanced, modulo the catalog size, by the number of ticks
that fired. -/
theorem sustained_index (fire : App → ℚ → Bool)
    (hfire : ∀ (g : App) (a : ℚ), a > deadZone → fire g a = decide (g.timeout < 0))
    (samples : List ℚ) :
    ∀ (g : App) (tr : List Bool) (gf : App), 1 ≤ g.games.length → g.games.length < 2 ^ 63 →
      0 ≤ g.selectedIndex → g.selectedIndex < g.games.length →
      (∀ a ∈ samples, a > deadZone) → navTrace fire g samples = .ok (tr, gf) →
      gf.selectedIndex = (g.selectedIndex + tr.count true) % g.games.length := by
  induction samples with
  | nil =>
    intro g tr gf _ _ h0 h1 _ he
    simp only [navTrace, Except.ok.injEq, Prod.mk.injEq] at he
    obtain ⟨htr, hg⟩ := he
    subst htr; subst hg
    simp only [List.count_nil, Nat.cast_zero, Int.add_zero]
    rw [Int.emod_eq_of_lt h0 h1]
  | cons a as ih =>
    intro g tr gf hN hlen h0 h1 hs he
    have ha : a > deadZone := hs a (by simp)
    have hs1 : ∀ b ∈ as, b > deadZone := fun b hb => hs b (by simp [hb])
    have hpos : (0 : Int) < g.games.length := by omega
    rw [navTrace_cons_eq _ g a as hN] at he
    cases hrun : navTrace fire (navigated g a) as with
    | error p => rw [hrun] at he; cases he
    | ok r =>
      obtain ⟨t, gf1⟩ := r
      rw [hrun] at he
      simp only [Except.ok.injEq, Prod.mk.injEq] at he
      obtain ⟨htr, hg⟩ := he
      subst htr; subst hg
      have hidx := navigated_index g a hN hlen h0 h1
      by_cases ht : g.timeout < 0
      · rw [if_pos ⟨ht, ha⟩] at hidx
        have hf : fire g a = true := by rw [hfire g a ha]; simp [ht]
        have := ih (navigated g a) t gf1 hN hlen
          (by rw [hidx]; exact Int.emod_nonneg _ (by omega))
          (by rw [hidx, navigated_games]; exact Int.emod_lt_of_pos _ hpos) hs1 hrun
        rw [this, hidx, navigated_games, hf, List.count_cons_self, Int.emod_add_emod]
        congr 1
        push_cast
        omega
      · rw [if_neg (fun h => ht h.1), if_neg (fun h => ht h.1)] at hidx
        have hf : fire g a = false := by rw [hfire g a ha]; simp [ht]
        have := ih (navigated g a) t gf1 hN hlen
          (by rw [hidx]; exact h0) (by rw [hidx, navigated_games]; exact h1) hs1 hrun
        rw [this, hidx, navigated_games, hf, List.count_cons_of_ne (by decide)]

theorem sustained_replicate (n : Nat) : ∀ a ∈ List.replicate n (1 : ℚ), a > deadZone := by
  intro a ha
  rw [List.eq_of_mem_replicate ha]
  norm_num [deadZone]

/-! ## Lemmas on `Update` -/

theorem index_ok (games : List Game) (i : Int) (h0 : 0 ≤ i) (h1 : i < games.length) :
    ∃ s, index games i = .ok s := by
  unfold index
  rw [if_neg (by omega)]
  cases h : games.get? i.toNat with
  | none =>
    rw [List.get?_eq_none] at h
    omega
  | some s => exact ⟨s, rfl⟩

theorem animations_length (g : App) : (animations g).games.length = g.games.length := by
  simp [animations]

/-- The value of `openAndClosing` when the handle `c` is installed. -/
theorem openAndClosing_some (g : App) (inp : Input) (c : Cmd) (h : g.currentChild = some c) :
    openAndClosing g inp =
      if inp.pressDuration7 > killHoldDuration ∧ inp.pressDuration6 > killHoldDuration then
        match c.Process with
        | none => .error .nilDereference
        | some _ =>
          match inp.killErr with
          | some e => .ok [Effect.kill c, Effect.log e]
          | none => .ok [Effect.kill c]
      else .ok [] := by
  unfold openAndClosing
  rw [h]
  by_cases hb : inp.pressDuration7 > killHoldDuration ∧ inp.pressDuration6 > killHoldDuration
  · rw [if_pos hb]
    simp only [hb.1, hb.2, decide_True, Bool.and_self, if_true]
    rfl
  · rw [if_neg hb]
    have hf : (decide (inp.pressDuration7 > killHoldDuration) &&
        decide (inp.pressDuration6 > killHoldDuration)) = false := by
      rw [Bool.and_eq_false_iff]
      by_cases h7 : inp.pressDuration7 > killHoldDuration
      · right; simp only [decide_eq_false_iff_not]; exact fun h6 => hb ⟨h7, h6⟩
      · left; simp only [decide_eq_false_iff_not]; exact h7
    simp only [hf]
    rfl

theorem openAndClosing_ok (g : App) (inp : Input) (hN : 1 ≤ g.games.length)
    (h0 : 0 ≤ g.selectedIndex) (h1 : g.selectedIndex < g.games.length)
    (hp : ∀ c, g.currentChild = some c → c.Process = none →
      ¬ (inp.pressDuration7 > killHoldDuration ∧ inp.pressDuration6 > killHoldDuration)) :
    ∃ effs, openAndClosing g inp = .ok effs := by
  cases hc : g.currentChild with
  | none =>
    unfold openAndClosing
    rw [hc]
    by_cases hq : inp.confirmJustPressed = true
    · have hr : goRem g.selectedIndex g.games.length = .ok g.selectedIndex := by
        unfold goRem
        rw [if_neg (by omega), Int.tmod_eq_of_lt h0 h1]
      obtain ⟨s, hs⟩ := index_ok g.games g.selectedIndex h0 h1
      simp [hq, hr, hs, bind, Except.bind, pure, Except.pure]
    · simp [hq, pure, Except.pure]
  | some c =>
    rw [openAndClosing_some g inp c hc]
    by_cases hb : inp.pressDuration7 > killHoldDuration ∧ inp.pressDuration6 > killHoldDuration
    · rw [if_pos hb]
      cases hproc : c.Process with
      | none => exact absurd hb (hp c hc hproc)
      | some pid => cases hk : inp.killErr <;> exact ⟨_, rfl⟩
    · rw [if_neg hb]
      exact ⟨_, rfl⟩

/-- On a non-empty catalog a tick that starts with the index in range, and
does not call Kill through a nil Process, returns with the catalog size
unchanged and the index in range. -/
theorem Update_in_range (g : App) (inp : Input) (hN : 1 ≤ g.games.length)
    (h0 : 0 ≤ g.selectedIndex) (h1 : g.selectedIndex < g.games.length)
    (hp : ∀ c, g.currentChild = some c → c.Process = none →
      ¬ (inp.pressDuration7 > killHoldDuration ∧ inp.pressDuration6 > killHoldDuration)) :
    ∃ g1 effs, Update g inp = .ok (g1, effs) ∧ g1.games.length = g.games.length ∧
      0 ≤ g1.selectedIndex ∧ g1.selectedIndex < g.games.length := by
  by_cases hc : g.currentChild = none
  · have hlen : (animations (navigated g inp.axis)).games.length = g.games.length := by
      rw [animations_length, navigated_games]
    have hi0 : 0 ≤ (animations (navigated g inp.axis)).selectedIndex :=
      wrapIndex_nonneg _ _ hN
    have hi1 : (animations (navigated g inp.axis)).selectedIndex < g.games.length :=
      wrapIndex_lt _ _ hN
    have hchild : (animations (navigated g inp.axis)).currentChild = none := hc
    obtain ⟨effs, he⟩ := openAndClosing_ok (animations (navigated g inp.axis)) inp
      (by rw [hlen]; exact hN) hi0 (by rw [hlen]; exact hi1)
      (by intro c hcc; rw [hchild] at hcc; cases hcc)
    refine ⟨animations (navigated g inp.axis), effs, ?_, hlen, hi0, hi1⟩
    simp [Update, hc, navigation_eq g inp.axis hN, he, bind, Except.bind, pure, Except.pure]
  · obtain ⟨effs, he⟩ := openAndClosing_ok g inp hN h0 h1 hp
    refine ⟨g, effs, ?_, rfl, h0, h1⟩
    simp [Update, hc, he, bind, Except.bind, pure, Except.pure]

theorem ticks_in_range (evs : List (Option Cmd × Input)) :
    ∀ (g : App), 1 ≤ g.games.length → 0 ≤ g.selectedIndex →
      g.selectedIndex < g.games.length →
      (∀ ev ∈ evs, ∀ c, ev.1 = some c → c.Process = none →
        ¬ (ev.2.pressDuration7 > killHoldDuration ∧ ev.2.pressDuration6 > killHoldDuration)) →
      ∃ gf, ticks g evs = .ok gf ∧ gf.games.length = g.games.length ∧
        0 ≤ gf.selectedIndex ∧ gf.selectedIndex < g.games.length := by
  induction evs with
  | nil => intro g _ h0 h1 _; exact ⟨g, rfl, rfl, h0, h1⟩
  | cons ev rest ih =>
    intro g hN h0 h1 hp
    obtain ⟨child, inp⟩ := ev
    obtain ⟨g1, effs, e, hlen, hi0, hi1⟩ :=
      Update_in_range { g with currentChild := child } inp hN h0 h1
        (fun c hc hn => hp (child, inp) (by simp) c hc hn)
    obtain ⟨gf, ef, hlenf, hf0, hf1⟩ := ih g1 (by rw [hlen]; exact hN) hi0
      (by rw [hlen]; exact hi1) (fun ev hev => hp ev (by simp [hev]))
    refine ⟨gf, ?_, by rw [hlenf, hlen], hf0, by rw [hlen] at hf1; exact hf1⟩
    simp [ticks, e, ef]

/-! ## Lemmas on a tick with a child installed -/

theorem openAndClosing_running (g : App) (inp : Input) (c : Cmd)
    (h : g.currentChild = some c)
    (hp : c.Process = none →
      ¬ (inp.pressDuration7 > killHoldDuration ∧ inp.pressDuration6 > killHoldDuration)) :
    ∃ effs, openAndClosing g inp = .ok effs ∧
      (effs = [] ∨ effs = [Effect.kill c] ∨ ∃ e, effs = [Effect.kill c, Effect.log e]) ∧
      (Effect.kill c ∈ effs ↔
        (inp.pressDuration7 > killHoldDuration ∧ inp.pressDuration6 > killHoldDuration)) := by
  rw [openAndClosing_some g inp c h]
  by_cases hb : inp.pressDuration7 > killHoldDuration ∧ inp.pressDuration6 > killHoldDuration
  · rw [if_pos hb]
    cases hproc : c.Process with
    | none => exact absurd hb (hp hproc)
    | some pid =>
      cases hk : inp.killErr with
      | none => exact ⟨_, rfl, Or.inr (Or.inl rfl), by simp [hb]⟩
      | some e => exact ⟨_, rfl, Or.inr (Or.inr ⟨e, rfl⟩), by simp [hb]⟩
  · rw [if_neg hb]
    exact ⟨_, rfl, Or.inl rfl, by simp [hb]⟩

theorem openAndClosing_nil_process (g : App) (inp : Input) (c : Cmd)
    (h : g.currentChild = some c) (hn : c.Process = none)
    (h7 : inp.pressDuration7 > killHoldDuration) (h6 : inp.pressDuration6 > killHoldDuration) :
    openAndClosing g inp = .error .nilDereference := by
  rw [openAndClosing_some g inp c h, if_pos ⟨h7, h6⟩, hn]

theorem Update_of_running (g : App) (inp : Input) (c : Cmd) (h : g.currentChild = some c) :
    Update g inp =
      match openAndClosing g inp with
      | .error p => .error p
      | .ok effs => .ok (g, effs) := by
  have hne : ¬ g.currentChild = none := by rw [h]; exact fun hh => by cases hh
  simp only [Update, hne, if_false, bind, Except.bind, pure, Except.pure]
  cases openAndClosing g inp <;> rfl

theorem Update_running (g : App) (inp : Input) (c : Cmd) (h : g.currentChild = some c)
    (hp : c.Process = none →
      ¬ (inp.pressDuration7 > killHoldDuration ∧ inp.pressDuration6 > killHoldDuration)) :
    ∃ effs, Update g inp = .ok (g, effs) ∧ openAndClosing g inp = .ok effs := by
  obtain ⟨effs, e, _⟩ := openAndClosing_running g inp c h hp
  refine ⟨effs, ?_, e⟩
  rw [Update_of_running g inp c h, e]

theorem openAndClosing_no_launch (g : App) (inp : Input) (c : Cmd)
    (h : g.currentChild = some c) (effs : List Effect)
    (he : openAndClosing g inp = .ok effs) : ∀ s, Effect.goWait s ∉ effs := by
  rw [openAndClosing_some g inp c h] at he
  by_cases hb : inp.pressDuration7 > killHoldDuration ∧ inp.pressDuration6 > killHoldDuration
  · rw [if_pos hb] at he
    cases hproc : c.Process with
    | none => rw [hproc] at he; cases he
    | some pid =>
      rw [hproc] at he
      cases hk : inp.killErr with
      | none => rw [hk] at he; cases he; simp
      | some e => rw [hk] at he; cases he; simp
  · rw [if_neg hb] at he
    cases he
    simp

/-! ## Theorems -/

/-- C1. Wraparound invariant: for a catalog of size N >= 1, one call of
navigation returns, for every selectedIndex, timeout and axis sample, with
0 <= selectedIndex < N; hence from any state whose index is in range (the
initial state has index 0) every run of navigation returns with the index in
[0, N), and for N = 1 the index is 0. The same holds of every run of Update
ticks in which no tick calls Kill through a nil Process. -/
theorem navigation_index_in_range (games : List Game) (hN : 1 ≤ games.length) :
    (∀ (g : App) (axis : ℚ), g.games = games →
      ∃ g1, navigation g axis = .ok g1 ∧ g1.games = games ∧
        0 ≤ g1.selectedIndex ∧ g1.selectedIndex < games.length) ∧
    (∀ (g : App) (samples : List ℚ), g.games = games →
      0 ≤ g.selectedIndex → g.selectedIndex < games.length →
      ∃ tr gf, navTrace stepFires g samples = .ok (tr, gf) ∧ gf.games = games ∧
        0 ≤ gf.selectedIndex ∧ gf.selectedIndex < games.length ∧
        (games.length = 1 → gf.selectedIndex = 0)) ∧
    (∀ (g : App) (evs : List (Option Cmd × Input)), g.games = games →
      0 ≤ g.selectedIndex → g.selectedIndex < games.length →
      (∀ ev ∈ evs, ∀ c, ev.1 = some c → c.Process = none →
        ¬ (ev.2.pressDuration7 > killHoldDuration ∧ ev.2.pressDuration6 > killHoldDuration)) →
      ∃ gf, ticks g evs = .ok gf ∧ gf.games.length = games.length ∧
        0 ≤ gf.selectedIndex ∧ gf.selectedIndex < games.length ∧
        (games.length = 1 → gf.selectedIndex = 0)) := by
  have step : ∀ (g : App) (axis : ℚ), g.games = games →
      ∃ g1, navigation g axis = .ok g1 ∧ g1.games = games ∧
        0 ≤ g1.selectedIndex ∧ g1.selectedIndex < games.length := by
    intro g axis hg
    subst hg
    exact ⟨_, navigation_eq g axis hN, rfl, wrapIndex_nonneg _ _ hN, wrapIndex_lt _ _ hN⟩
  refine ⟨step, ?_, ?_⟩
  · intro g samples
    induction samples generalizing g with
    | nil =>
      intro hg h0 h1
      exact ⟨[], g, rfl, hg, h0, h1, fun h => by omega⟩
    | cons a as ih =>
      intro hg _ _
      obtain ⟨g1, e1, hg1, h0, h1⟩ := step g a hg
      obtain ⟨tr, gf, e2, hgf⟩ := ih g1 hg1 h0 h1
      exact ⟨stepFires g a :: tr, gf, by simp [navTrace, e1, e2], hgf⟩
  · intro g evs hg h0 h1 hp
    subst hg
    obtain ⟨gf, e, hlen, hf0, hf1⟩ := ticks_in_range evs g hN h0 h1 hp
    exact ⟨gf, e, hlen, hf0, hf1, fun h => by omega⟩

/-- Witness of C1 on the three-game catalog, from the state main builds: one
call of navigation, a run of three calls, and a run of three Update ticks (the
second one with a child installed); and a run on a catalog of one game. -/
theorem navigation_index_in_range_witness :
    (∃ g1, navigation (mainApp [game1, game2, game3]) 1 = .ok g1 ∧
      g1.games = [game1, game2, game3] ∧
      0 ≤ g1.selectedIndex ∧ g1.selectedIndex < ([game1, game2, game3].length : Int)) ∧
    (∃ tr gf, navTrace stepFires (mainApp [game1, game2, game3]) [1, 1, -1] = .ok (tr, gf) ∧
      gf.games = [game1, game2, game3] ∧
      0 ≤ gf.selectedIndex ∧ gf.selectedIndex < ([game1, game2, game3].length : Int) ∧
      (([game1, game2, game3] : List Game).length = 1 → gf.selectedIndex = 0)) ∧
    (∃ gf, ticks (mainApp [game1, game2, game3])
        [(none, ⟨1, false, 0, 0, none⟩), (some ⟨"/a", some 7⟩, ⟨1, false, 0, 0, none⟩),
         (none, ⟨-1, true, 0, 0, none⟩)] = .ok gf ∧
      gf.games.length = [game1, game2, game3].length ∧
      0 ≤ gf.selectedIndex ∧ gf.selectedIndex < ([game1, game2, game3].length : Int) ∧
      (([game1, game2, game3] : List Game).length = 1 → gf.selectedIndex = 0)) ∧
    (∃ tr gf, navTrace stepFires (app1 (-1)) [1, -1, -1] = .ok (tr, gf) ∧
      gf.selectedIndex = 0) :=
  ⟨(navigation_index_in_range [game1, game2, game3] (by decide)).1
      (mainApp [game1, game2, game3]) 1 rfl,
   (navigation_index_in_range [game1, game2, game3] (by decide)).2.1
      (mainApp [game1, game2, game3]) [1, 1, -1] rfl (by decide) (by decide),
   (navigation_index_in_range [game1, game2, game3] (by decide)).2.2
      (mainApp [game1, game2, game3]) _ rfl (by decide) (by decide)
      (by
        intro ev hev c _ _ hb
        simp only [List.mem_cons, List.mem_singleton, List.not_mem_nil, or_false] at hev
        rcases hev with rfl | rfl | rfl <;> exact absurd hb.1 (by decide)),
   by
    obtain ⟨tr, gf, e, _, _, _, h⟩ := (navigation_index_in_range [game1] (by decide)).2.1
      (app1 (-1)) [1, -1, -1] rfl (by decide) (by decide)
    exact ⟨tr, gf, e, h rfl⟩⟩

/-- C2. Step arithmetic of navigation: for a catalog of size N >= 1 (at most
the largest Go int) and an index i in [0, N), navigation returns; with the
timer armed and the sample above the dead zone the new index is (i + 1) mod N,
with the timer armed and the sample below minus the dead zone it is
(i - 1 + N) mod N, and in every other case it is i. -/
theorem navigation_step_arithmetic (g : App) (axis : ℚ)
    (hN : 1 ≤ g.games.length) (hlen : g.games.length < 2 ^ 63)
    (h0 : 0 ≤ g.selectedIndex) (h1 : g.selectedIndex < g.games.length) :
    ∃ g1, navigation g axis = .ok g1 ∧
      (g.timeout < 0 → axis > deadZone →
        g1.selectedIndex = (g.selectedIndex + 1) % g.games.length) ∧
      (g.timeout < 0 → axis < -deadZone →
        g1.selectedIndex = (g.selectedIndex - 1 + g.games.length) % g.games.length) ∧
      (¬ (g.timeout < 0 ∧ (axis > deadZone ∨ axis < -deadZone)) →
        g1.selectedIndex = g.selectedIndex) := by
  have hidx := navigated_index g axis hN hlen h0 h1
  refine ⟨_, navigation_eq g axis hN, ?_, ?_, ?_⟩
  · intro ht ha
    rw [hidx, if_pos ⟨ht, ha⟩]
  · intro ht hb
    have ha : ¬ axis > deadZone := fun ha => not_both_sides axis ha hb
    rw [hidx, if_neg (fun h => ha h.2), if_pos ⟨ht, hb⟩]
  · intro hno
    rw [hidx, if_neg (fun h => hno ⟨h.1, Or.inl h.2⟩), if_neg (fun h => hno ⟨h.1, Or.inr h.2⟩)]

/-- Witness of C2 on a catalog of three games: Previous from 0 gives 2, and
Next from 2 gives 0, Next from 0 gives 1. -/
theorem navigation_step_arithmetic_witness :
    (∃ g1, navigation (app3 0 (-1)) (-1) = .ok g1 ∧ g1.selectedIndex = 2) ∧
    (∃ g1, navigation (app3 2 (-1)) 1 = .ok g1 ∧ g1.selectedIndex = 0) ∧
    (∃ g1, navigation (app3 0 (-1)) 1 = .ok g1 ∧ g1.selectedIndex = 1) ∧
    (∃ g1, navigation (app3 1 5) 1 = .ok g1 ∧ g1.selectedIndex = 1) := by
  refine ⟨?_, ?_, ?_, ?_⟩
  · obtain ⟨g1, e, _, h, _⟩ := navigation_step_arithmetic (app3 0 (-1)) (-1)
      (by decide) (by decide) (by decide) (by decide)
    exact ⟨g1, e, h (by decide) (by norm_num [deadZone])⟩
  · obtain ⟨g1, e, h, _, _⟩ := navigation_step_arithmetic (app3 2 (-1)) 1
      (by decide) (by decide) (by decide) (by decide)
    exact ⟨g1, e, h (by decide) (by norm_num [deadZone])⟩
  · obtain ⟨g1, e, h, _, _⟩ := navigation_step_arithmetic (app3 0 (-1)) 1
      (by decide) (by decide) (by decide) (by decide)
    exact ⟨g1, e, h (by decide) (by norm_num [deadZone])⟩
  · obtain ⟨g1, e, _, _, h⟩ := navigation_step_arithmetic (app3 1 5) 1
      (by decide) (by decide) (by decide) (by decide)
    exact ⟨g1, e, h (by simp [app3])⟩

/-- C3 (counterexample). The state a failed Start leaves has a handle
installed; with both buttons held for 61 ticks openAndClosing calls Kill
through the nil Process and panics: it does not return, and no kill request is
issued although both holds exceed killHoldDuration. -/
theorem kill_on_unstarted_handle_panics :
    (wait (app3 1 (-3)) game1 (.error "no such file") none).1 = stuckApp ∧
    stuckApp.currentChild = some { Path := "/a", Process := none } ∧
    ((61 : Int) > killHoldDuration ∧ (61 : Int) > killHoldDuration) ∧
    openAndClosing stuckApp ⟨0, false, 61, 61, none⟩ = .error .nilDereference ∧
    ¬ ∃ effs, openAndClosing stuckApp ⟨0, false, 61, 61, none⟩ = .ok effs ∧
      Effect.kill { Path := "/a", Process := none } ∈ effs := by
  have hp : openAndClosing stuckApp ⟨0, false, 61, 61, none⟩ = .error .nilDereference :=
    openAndClosing_nil_process stuckApp ⟨0, false, 61, 61, none⟩ ⟨"/a", none⟩ rfl rfl
      (by decide) (by decide)
  refine ⟨rfl, rfl, ⟨by decide, by decide⟩, hp, ?_⟩
  rintro ⟨effs, he, _⟩
  rw [hp] at he
  cases he

/-- C3 (amended). Kill requires both holds: with the handle of a started child
installed (currentChild != nil and its Process != nil), openAndClosing
returns, and it issues the kill request (on that handle, and on no other) if
and only if the press durations of GamepadButton7 and of GamepadButton6 are
both strictly greater than killHoldDuration. With any handle installed,
holding only one of them, or both for at most killHoldDuration, issues no kill
(nothing is called). With no handle installed no kill is issued, whatever the
durations. -/
theorem kill_iff_both_held (g : App) (inp : Input) :
    (∀ c, g.currentChild = some c → c.Process ≠ none →
      ∃ effs, openAndClosing g inp = .ok effs ∧
        (Effect.kill c ∈ effs ↔
          (inp.pressDuration7 > killHoldDuration ∧ inp.pressDuration6 > killHoldDuration)) ∧
        (∀ c1, Effect.kill c1 ∈ effs → c1 = c)) ∧
    (∀ c, g.currentChild = some c →
      ¬ (inp.pressDuration7 > killHoldDuration ∧ inp.pressDuration6 > killHoldDuration) →
      openAndClosing g inp = .ok []) ∧
    (g.currentChild = none →
      ∀ effs, openAndClosing g inp = .ok effs → ∀ c, Effect.kill c ∉ effs) := by
  refine ⟨?_, ?_, ?_⟩
  · intro c hc hproc
    obtain ⟨effs, e, hcases, hiff⟩ :=
      openAndClosing_running g inp c hc (fun hn => absurd hn hproc)
    refine ⟨effs, e, hiff, ?_⟩
    intro c1 hmem
    rcases hcases with h1 | h1 | ⟨e1, h1⟩ <;> subst h1 <;> simp at hmem <;> exact hmem
  · intro c hc hb
    rw [openAndClosing_some g inp c hc, if_neg hb]
  · intro hc effs he c hmem
    unfold openAndClosing at he
    rw [hc] at he
    by_cases hp : inp.confirmJustPressed = true
    · simp only [hp, if_true, bind, Except.bind, pure, Except.pure] at he
      split at he
      · cases he
      · split at he
        · cases he
        · cases he
          simp at hmem
    · simp only [hp, pure, Except.pure] at he
      cases he
      simp at hmem

/-- Witness of C3 (amended): both buttons held for 61 ticks kill the started
child; 60 ticks on one of them call nothing, also on a handle that never
started; nothing is killed when no child is installed. -/
theorem kill_iff_both_held_witness :
    (∃ effs, openAndClosing runningApp ⟨0, false, 61, 61, none⟩ = .ok effs ∧
      Effect.kill ⟨"/a", some 7⟩ ∈ effs) ∧
    openAndClosing runningApp ⟨0, false, 61, 60, none⟩ = .ok [] ∧
    openAndClosing stuckApp ⟨0, false, 61, 60, none⟩ = .ok [] ∧
    (∀ effs, openAndClosing (app3 0 0) ⟨0, true, 61, 61, none⟩ = .ok effs →
      ∀ c, Effect.kill c ∉ effs) := by
  refine ⟨?_, ?_, ?_, ?_⟩
  · obtain ⟨effs, e, h, _⟩ :=
      (kill_iff_both_held runningApp ⟨0, false, 61, 61, none⟩).1 ⟨"/a", some 7⟩ rfl
        (by simp)
    exact ⟨effs, e, h.2 ⟨by decide, by decide⟩⟩
  · exact (kill_iff_both_held runningApp ⟨0, false, 61, 60, none⟩).2.1 ⟨"/a", some 7⟩ rfl
      (fun hb => absurd hb.2 (by decide))
  · exact (kill_iff_both_held stuckApp ⟨0, false, 61, 60, none⟩).2.1 ⟨"/a", none⟩ rfl
      (fun hb => absurd hb.2 (by decide))
  · exact (kill_iff_both_held (app3 0 0) ⟨0, true, 61, 61, none⟩).2.2 rfl

/-- C5 (failing input). After a clean exit wait clears the handle, but when the
child was started and the blocking Wait returns an error (non-zero exit
status, death by signal after a kill, failure of Wait itself), wait returns at
line 149 with the handle still installed, and every later tick leaves the
whole state as it is: navigation does not run again. -/
theorem wait_keeps_handle_on_wait_error (g : App) (game : Game) (pid : Nat) (e : String)
    (inp : Input) :
    (wait g game (.ok pid) none).1.currentChild = none ∧
    (wait g game (.ok pid) (some e)).1.currentChild
        = some { Path := game.ExecutablePath, Process := some pid } ∧
    ∃ effs, Update (wait g game (.ok pid) (some e)).1 inp
        = .ok ((wait g game (.ok pid) (some e)).1, effs) := by
  refine ⟨rfl, rfl, ?_⟩
  simp only [wait, Update, openAndClosing]
  by_cases h7 : inp.pressDuration7 > killHoldDuration <;>
    by_cases h6 : inp.pressDuration6 > killHoldDuration <;>
    cases hk : inp.killErr <;>
    simp [h7, h6, bind, Except.bind, pure, Except.pure]

/-- C6 (failing input). When Start fails, wait returns at line 143 with the
handle of the command that never started still installed. Every later tick
then skips navigation and the launch branch: it returns with the state
unchanged and nothing called, except under the kill combination, where it
panics on the nil Process. -/
theorem wait_keeps_handle_on_start_error (g : App) (game : Game) (e : String)
    (waitErr : Option String) (inp : Input) :
    (wait g game (.error e) waitErr).1.currentChild
        = some { Path := game.ExecutablePath, Process := none } ∧
    Update (wait g game (.error e) waitErr).1 inp =
      if inp.pressDuration7 > killHoldDuration ∧ inp.pressDuration6 > killHoldDuration then
        .error .nilDereference
      else .ok ((wait g game (.error e) waitErr).1, []) := by
  have hc : (wait g game (.error e) waitErr).1.currentChild
      = some { Path := game.ExecutablePath, Process := none } := rfl
  refine ⟨hc, ?_⟩
  rw [Update_of_running _ inp _ hc, openAndClosing_some _ inp _ hc]
  by_cases hb : inp.pressDuration7 > killHoldDuration ∧ inp.pressDuration6 > killHoldDuration
  · rw [if_pos hb, if_pos hb]
  · rw [if_neg hb, if_neg hb]

/-- C7 (counterexample). Called with a handle installed, wait is not refused:
whatever Start and Wait do, it spawns a second process and the handle it
returns with is not the one that was installed. -/
theorem wait_replaces_installed_handle :
    runningApp.currentChild = some { Path := "/a", Process := some 7 } ∧
    (wait runningApp game2 (.error "no such file") none).1.currentChild
      = some { Path := "/b", Process := none } ∧
    (wait runningApp game2 (.ok 8) (some "exit status 1")).1.currentChild
      = some { Path := "/b", Process := some 8 } ∧
    (wait runningApp game2 (.ok 8) none).1.currentChild = none ∧
    Effect.start { Path := "/b", Process := none }
      ∈ (wait runningApp game2 (.error "no such file") none).2 ∧
    Effect.start { Path := "/b", Process := none }
      ∈ (wait runningApp game2 (.ok 8) (some "exit status 1")).2 ∧
    Effect.start { Path := "/b", Process := none } ∈ (wait runningApp game2 (.ok 8) none).2 := by
  refine ⟨rfl, rfl, rfl, rfl, ?_, ?_, ?_⟩ <;> simp [wait, game2]

/-- C7 (amended). At-most-one child is enforced by the caller: with a handle
installed, openAndClosing never invokes wait, whatever the input; whenever the
tick (Update) returns, currentChild is the same handle as before and no launch
was started; and the tick does return unless it calls Kill through a nil
Process. -/
theorem no_launch_while_running (g : App) (inp : Input) (c : Cmd)
    (h : g.currentChild = some c) :
    (∀ effs, openAndClosing g inp = .ok effs → ∀ s, Effect.goWait s ∉ effs) ∧
    (∀ g1 effs, Update g inp = .ok (g1, effs) →
      g1.currentChild = some c ∧ ∀ s, Effect.goWait s ∉ effs) ∧
    ((c.Process = none →
        ¬ (inp.pressDuration7 > killHoldDuration ∧ inp.pressDuration6 > killHoldDuration)) →
      ∃ effs, Update g inp = .ok (g, effs) ∧ openAndClosing g inp = .ok effs) := by
  refine ⟨openAndClosing_no_launch g inp c h, ?_, Update_running g inp c h⟩
  intro g1 effs he
  rw [Update_of_running g inp c h] at he
  cases hoc : openAndClosing g inp with
  | error p => rw [hoc] at he; cases he
  | ok effs1 =>
    rw [hoc] at he
    cases he
    exact ⟨h, openAndClosing_no_launch g inp c h _ hoc⟩

/-- Witness of C7 (amended): the confirm button pressed while a child runs. -/
theorem no_launch_while_running_witness :
    ∃ effs, Update runningApp ⟨1, true, 0, 0, none⟩ = .ok (runningApp, effs) ∧
      openAndClosing runningApp ⟨1, true, 0, 0, none⟩ = .ok effs ∧
      runningApp.currentChild = some ⟨"/a", some 7⟩ ∧
      ∀ s, Effect.goWait s ∉ effs := by
  have h := no_launch_while_running runningApp ⟨1, true, 0, 0, none⟩ ⟨"/a", some 7⟩ rfl
  obtain ⟨effs, e1, e2⟩ := h.2.2 (fun hn => by simp at hn)
  exact ⟨effs, e1, e2, rfl, h.1 effs e2⟩

/-- C8 (counterexample). In the state a failed Start leaves (a handle
installed, its Process nil), the tick with both buttons held for 61 ticks
panics in Process.Kill: it does not return with the state unchanged. -/
theorem update_on_unstarted_handle_panics :
    (wait (app3 1 (-3)) game1 (.error "no such file") none).1 = stuckApp ∧
    stuckApp.currentChild ≠ none ∧
    Update stuckApp ⟨0, false, 61, 61, none⟩ = .error .nilDereference ∧
    ¬ ∃ g1 effs, Update stuckApp ⟨0, false, 61, 61, none⟩ = .ok (g1, effs) := by
  have hp : Update stuckApp ⟨0, false, 61, 61, none⟩ = .error .nilDereference := by
    rw [Update_of_running stuckApp _ ⟨"/a", none⟩ rfl,
      openAndClosing_nil_process stuckApp ⟨0, false, 61, 61, none⟩ ⟨"/a", none⟩ rfl rfl
        (by decide) (by decide)]
  refine ⟨rfl, by simp [stuckApp], hp, ?_⟩
  rintro ⟨g1, effs, he⟩
  rw [hp] at he
  cases he

/-- C8 (amended). Running freezes controller state: with a handle installed,
and unless the tick calls Kill through a nil Process (the installed command
never started and both holds exceed killHoldDuration), one Update tick
returns, for every input and every outcome of the kill request, with
selectedIndex, timeout and currentChild (indeed the whole state) unchanged;
the only calls it can make are the kill request on the installed handle and,
when that request fails, the log of its error. -/
theorem running_tick_freezes_state (g : App) (inp : Input) (c : Cmd)
    (h : g.currentChild = some c)
    (hp : c.Process = none →
      ¬ (inp.pressDuration7 > killHoldDuration ∧ inp.pressDuration6 > killHoldDuration)) :
    ∃ g1 effs, Update g inp = .ok (g1, effs) ∧
      g1.selectedIndex = g.selectedIndex ∧ g1.timeout = g.timeout ∧
      g1.currentChild = g.currentChild ∧ g1 = g ∧
      (effs = [] ∨ effs = [Effect.kill c] ∨ ∃ e, effs = [Effect.kill c, Effect.log e]) := by
  obtain ⟨effs, e, hcases, _⟩ := openAndClosing_running g inp c h hp
  refine ⟨g, effs, ?_, rfl, rfl, rfl, rfl, hcases⟩
  rw [Update_of_running g inp c h, e]

/-- Witness of C8 (amended): a failing kill request while a started child
runs. -/
theorem running_tick_freezes_state_witness :
    ∃ g1 effs, Update runningApp ⟨1, true, 100, 100, some "denied"⟩ = .ok (g1, effs) ∧
      g1.selectedIndex = runningApp.selectedIndex ∧ g1.timeout = runningApp.timeout ∧
      g1.currentChild = runningApp.currentChild ∧ g1 = runningApp ∧
      (effs = [] ∨ effs = [Effect.kill ⟨"/a", some 7⟩] ∨
        ∃ e, effs = [Effect.kill ⟨"/a", some 7⟩, Effect.log e]) :=
  running_tick_freezes_state runningApp ⟨1, true, 100, 100, some "denied"⟩ ⟨"/a", some 7⟩ rfl
    (fun hn => by simp at hn)

/-- C9 (failing input). With an empty catalog main still hands the App to the
tick loop, and the first tick panics in navigation on the modulo by
len(games) = 0, whatever the input. -/
theorem empty_catalog_first_tick_panics (inp : Input) :
    (mainApp []).games.length = 0 ∧
    navigation (mainApp []) inp.axis = .error .divideByZero ∧
    Update (mainApp []) inp = .error .divideByZero := by
  have hnav : navigation (mainApp []) inp.axis = .error .divideByZero := by
    simp [navigation, mainApp, goRem, bind, Except.bind]
  refine ⟨rfl, hnav, ?_⟩
  simp only [Update, bind, Except.bind, hnav]
  simp [mainApp]

/-- C10. Debounce window is a minimum interval: for a catalog of size N >= 1,
every starting state and every sequence of axis samples, the run of navigation
returns, and any two distinct ticks on which a navigation step fires are at
least navigationTimeout = 20 ticks apart. -/
theorem steps_at_least_timeout_apart (g : App) (samples : List ℚ)
    (hN : 1 ≤ g.games.length) :
    ∃ tr gf, navTrace stepFires g samples = .ok (tr, gf) ∧ tr.length = samples.length ∧
      ∀ i j : Nat, i < j → tr[i]? = some true → tr[j]? = some true →
        navigationTimeout ≤ (j : Int) - i := by
  obtain ⟨tr, gf, e, hl, _⟩ := navTrace_total stepFires samples g hN
  refine ⟨tr, gf, e, hl, ?_⟩
  intro i j hij hi hj
  have := fires_apart samples g tr gf i j hN e hij hi hj
  omega

/-- Witness of C10: under 22 ticks of sustained input the run fires on tick 0
and again on tick 21, which are at least navigationTimeout ticks apart. -/
theorem steps_at_least_timeout_apart_witness :
    ∃ tr gf, navTrace stepFires (app3 0 (-1)) (List.replicate 22 1) = .ok (tr, gf) ∧
      tr[0]? = some true ∧ tr[21]? = some true ∧ navigationTimeout ≤ ((21 : Nat) : Int) - (0 : Nat) := by
  obtain ⟨tr, gf, e, _, h⟩ :=
    steps_at_least_timeout_apart (app3 0 (-1)) (List.replicate 22 1) (by decide)
  obtain ⟨tr1, gf1, e1, _, hidx, _⟩ := sustained_trace stepFires stepFires_sustained
    (List.replicate 22 1) (app3 0 (-1)) 0 (by decide) (sustained_replicate 22) (by decide)
    (Or.inl ⟨rfl, by decide⟩)
  rw [e] at e1
  simp only [Except.ok.injEq, Prod.mk.injEq] at e1
  obtain ⟨htr, _⟩ := e1
  subst htr
  have h0 : tr[0]? = some true := by rw [hidx 0 (by simp)]; rfl
  have h21 : tr[21]? = some true := by rw [hidx 21 (by simp)]; rfl
  exact ⟨tr, gf, e, h0, h21, h 0 21 (by decide) h0 h21⟩

/-- C4 (counterexample). From an armed timer, 21 * 20 = 420 ticks of sustained
input above the dead zone fire a Next step on tick 0, none on tick 20, the
second one on tick 21, and 20 Next steps in all (not 21): consecutive steps are
21 ticks apart, not navigationTimeout = 20. -/
theorem sustained_next_not_every_20_ticks :
    ∃ tr gf, navTrace firesNext (app3 0 (-1)) (List.replicate (21 * 20) 1) = .ok (tr, gf) ∧
      tr[0]? = some true ∧ tr[20]? = some false ∧ tr[21]? = some true ∧
      tr.count true = 20 := by
  obtain ⟨tr, gf, e, _, hidx, hcnt⟩ := sustained_trace firesNext firesNext_sustained
    (List.replicate (21 * 20) 1) (app3 0 (-1)) 0 (by decide) (sustained_replicate _) (by decide)
    (Or.inl ⟨rfl, by decide⟩)
  refine ⟨tr, gf, e, ?_, ?_, ?_, ?_⟩
  · rw [hidx 0 (by rw [List.length_replicate]; omega)]; rfl
  · rw [hidx 20 (by rw [List.length_replicate]; omega)]; rfl
  · rw [hidx 21 (by rw [List.length_replicate]; omega)]; rfl
  · rw [hcnt, List.length_replicate]

/-- C4 (amended). Debounce rate: with T = navigationTimeout = 20, from an armed
timer and with an axis sample above the dead zone on every tick, the run of
navigation returns and a Next step fires exactly on the ticks that are
multiples of T + 1 = 21 (the first tick among them): consecutive Next steps are
exactly T + 1 ticks apart, so m * (T + 1) consecutive ticks produce exactly m
Next steps, and an index that started in range has advanced by m modulo the
catalog size. -/
theorem sustained_next_every_21_ticks (g : App) (samples : List ℚ) (m : Nat)
    (hN : 1 ≤ g.games.length) (ht : g.timeout < 0) (hs : ∀ a ∈ samples, a > deadZone)
    (hl : (samples.length : Int) = m * (navigationTimeout + 1)) :
    ∃ tr gf, navTrace firesNext g samples = .ok (tr, gf) ∧ tr.length = samples.length ∧
      (∀ k : Nat, k < samples.length →
        (tr[k]? = some true ↔ (k : Int) % (navigationTimeout + 1) = 0)) ∧
      tr.count true = m ∧
      (g.games.length < 2 ^ 63 → 0 ≤ g.selectedIndex → g.selectedIndex < g.games.length →
        gf.selectedIndex = (g.selectedIndex + m) % g.games.length) := by
  obtain ⟨tr, gf, e, hlen, hidx, hcnt⟩ := sustained_trace firesNext firesNext_sustained
    samples g 0 hN hs (by decide) (Or.inl ⟨rfl, ht⟩)
  simp only [navigationTimeout] at hl ⊢
  have hm : tr.count true = m := by rw [hcnt]; omega
  refine ⟨tr, gf, e, hlen, ?_, hm, ?_⟩
  · intro k hk
    rw [hidx k hk]
    simp only [Option.some.injEq, decide_eq_true_eq]
    omega
  · intro hlt h0 h1
    have := sustained_index firesNext firesNext_sustained samples g tr gf hN hlt h0 h1 hs e
    rw [this, hm]

/-- Witness of C4 (amended): 42 ticks of sustained input on three games, from
index 0 with the timer armed, fire two Next steps and end on index 2. -/
theorem sustained_next_every_21_ticks_witness :
    ∃ tr gf, navTrace firesNext (app3 0 (-1)) (List.replicate 42 1) = .ok (tr, gf) ∧
      tr.length = 42 ∧ tr[0]? = some true ∧ tr[21]? = some true ∧ tr.count true = 2 ∧
      gf.selectedIndex = 2 := by
  obtain ⟨tr, gf, e, hlen, hidx, hcnt, hfin⟩ :=
    sustained_next_every_21_ticks (app3 0 (-1)) (List.replicate 42 1) 2 (by decide) (by decide)
      (sustained_replicate 42) (by simp [navigationTimeout])
  refine ⟨tr, gf, e, by simpa using hlen, ?_, ?_, hcnt, ?_⟩
  · exact (hidx 0 (by simp)).2 (by decide)
  · exact (hidx 21 (by simp)).2 (by decide)
  · exact hfin (by decide) (by decide) (by decide)

end Launcher
